import Mathlib

/-!
Formal model of the ShiftGenius AI scheduling core, a shallow embedding of the
class AISchedulingEngine (generateOptimalSchedule, sortOrdersByQuantity,
schedulePreparationRooms, scheduleFillingRoom, findSuitableEmployees,
checkDependencies, validateSchedule, generateRecommendations) together with
theorems settling the stated properties of the specification.

Modelling conventions.
All timestamps are whole minutes.  The source manipulates JavaScript Date
values in milliseconds, but every arithmetic step is an addition or
subtraction of durationMinutes * 60000, so minute-valued integers represent
the same values exactly.  The hour-of-day test in the source compares
fractional hours (getHours() + getMinutes()/60 against hours + minutes/60 from
parseTimeString); we represent both sides scaled by 60, i.e. as whole minutes,
which preserves every comparison exactly.  Quantities, per-kilogram times and
headcounts are postgres integers used as nonnegative counts; they are
modelled as Nat.  The maxHours comparison (fractional total hours against
maxHours) is likewise represented scaled by 60.  Diagnostic strings are
modelled as structured values (Issue, Recommendation) carrying the same data
that the source interpolates into its message strings.
-/

namespace ShiftGenius

/-- Decimal digits to a number, as JavaScript Number on an all-digit string
(the only shape that occurs in the stored HH:MM fields). -/
def digitsToNat (cs : List Char) : Nat :=
  cs.foldl (fun n c => n * 10 + (c.toNat - ('0').toNat)) 0

/-- Model of JavaScript timeStr.split with separator colon. -/
def splitOnColon : List Char → List (List Char)
  | [] => [[]]
  | c :: cs =>
    let rest := splitOnColon cs
    if c = ':' then [] :: rest
    else
      match rest with
      | [] => [[c]]
      | r :: rs => (c :: r) :: rs

/-- Source parseTimeString maps "HH:MM" to hours + minutes/60, a fractional
hour count.  We return the same value scaled by 60 (whole minutes into the
day); every use in the source is a comparison of two such values, which the
scaling preserves exactly. -/
def parseTimeString (timeStr : String) : ℤ :=
  match splitOnColon timeStr.toList with
  | h :: m :: _ => 60 * (digitsToNat h : ℤ) + (digitsToNat m : ℤ)
  | [h] => 60 * (digitsToNat h : ℤ)
  | [] => 0

/-- Source taskTime.getHours() + taskTime.getMinutes()/60, scaled by 60: the
minute of the day of a minute-valued timestamp (Euclidean mod matches the
day-wrapping of the Date accessors). -/
def hourOfDayMinutes (t : ℤ) : ℤ := t % 1440

/-- Prefix test on character lists (helper for the substring test). -/
def beginsWith : List Char → List Char → Bool
  | [], _ => true
  | _ :: _, [] => false
  | p :: ps, c :: cs => p == c && beginsWith ps cs

/-- Substring occurrence anywhere in the list (helper for strIncludes). -/
def includesFrom (pat : List Char) : List Char → Bool
  | [] => pat.isEmpty
  | c :: cs => beginsWith pat (c :: cs) || includesFrom pat cs

/-- Model of JavaScript String.prototype.includes. -/
def strIncludes (s pat : String) : Bool :=
  includesFrom pat.toList s.toList

/-- Model of the optional-chaining call productionAreaId?.includes(pat):
false when the area reference is null. -/
def optIncludes (s : Option String) (pat : String) : Bool :=
  match s with
  | some str => strIncludes str pat
  | none => false

/-- The substring the source uses to recognise preparation areas. -/
def prepPat : String := "prep"

/-- The substring the source uses to recognise filling areas. -/
def fillingPat : String := "filling"

/-- Working-time model of an employee (jsonb field of the employees table).
maxHours is integral in every stored record; the fractional-hours comparison
of the validator is represented scaled by 60. -/
structure WorkingTimeModel where
  startTime : String
  endTime : String
  maxHours : ℤ
  breakTime : ℤ
deriving DecidableEq

/-- Row of the employees table, as read by the engine. -/
structure Employee where
  id : String
  name : String
  skills : List String
  workingTimeModel : WorkingTimeModel
  isAvailable : Bool
deriving DecidableEq

/-- Row of the process-steps table (immutable step template). -/
structure ProcessStep where
  id : String
  name : String
  requiredSkills : List String
  timePerKg : ℕ
  requiredEmployees : ℕ
  productionAreaId : Option String
deriving DecidableEq

/-- One entry of order.processSteps in the with-details shape consumed by the
engine: the order-step row joined with its process-step template. -/
structure OrderProcessStep where
  id : String
  processStepId : String
  sequence : ℤ
  processStep : ProcessStep
deriving DecidableEq

/-- Production order in the with-details shape (order row plus its step
list). -/
structure ProductionOrder where
  id : String
  productName : String
  totalQuantity : ℕ
  priority : String
  processSteps : List OrderProcessStep
deriving DecidableEq

/-- ScheduledTask record built by both passes. -/
structure ScheduledTask where
  orderId : String
  orderProcessStepId : String
  processStepId : String
  employeeId : String
  startTime : ℤ
  endTime : ℤ
  estimatedDuration : ℕ
  productionAreaId : String
deriving DecidableEq

/-- Structured rendering of the diagnostic strings pushed onto the issues
list, carrying the data the source interpolates. -/
inductive Issue where
  | insufficientStaff (stepName productName : String) (need found : ℕ)
  | dependencyNotMet (stepName productName reason : String)
  | overlappingAssignments (employeeName : String)
  | exceedsMaxHours (employeeName : String) (totalMinutes : ℤ) (maxHours : ℤ)
  | schedulingFailed (message : String)
deriving DecidableEq

/-- Structured rendering of the recommendation strings. -/
inductive Recommendation where
  | noOrders
  | reviewInput
  | lowUtilization (assigned available : ℕ)
  | highUtilization (assigned available : ℕ)
  | skillGap (skill : String)
  | breakDownLongTasks
deriving DecidableEq

/-- Result record of generateOptimalSchedule. -/
structure SchedulingResult where
  tasks : List ScheduledTask
  feasible : Bool
  issues : List Issue
  recommendations : List Recommendation
deriving DecidableEq

/-- Stable insertion of an element in front of the first entry it compares
at-most-equal to (helper for sortLe). -/
def insertLe {α : Type} (le : α → α → Bool) (a : α) : List α → List α
  | [] => [a]
  | b :: l => if le a b then a :: b :: l else b :: insertLe le a l

/-- Stable comparison sort, standing in for JavaScript Array.prototype.sort,
which the language specification requires to be stable; every comparator in
the source is of the shape key a - key b. -/
def sortLe {α : Type} (le : α → α → Bool) : List α → List α
  | [] => []
  | a :: l => insertLe le a (sortLe le l)

/-- Sort by an integer key, ascending (the comparator key a - key b). -/
def sortByKey {α : Type} (key : α → ℤ) (l : List α) : List α :=
  sortLe (fun a b => decide (key a ≤ key b)) l

/-- Source sortOrdersByQuantity: ascending totalQuantity; the priority field
is not consulted. -/
def sortOrdersByQuantity (orders : List ProductionOrder) : List ProductionOrder :=
  sortByKey (fun o => (o.totalQuantity : ℤ)) orders

/-- Source getPreparationStepsForOrder: the order steps whose joined template
area id contains "prep", sorted by sequence. -/
def getPreparationStepsForOrder (order : ProductionOrder) : List OrderProcessStep :=
  sortByKey (fun step => step.sequence)
    (order.processSteps.filter fun step => optIncludes step.processStep.productionAreaId prepPat)

/-- Source getFillingStepsForOrder: the order steps whose joined template
area id contains "filling", sorted by sequence. -/
def getFillingStepsForOrder (order : ProductionOrder) : List OrderProcessStep :=
  sortByKey (fun step => step.sequence)
    (order.processSteps.filter fun step => optIncludes step.processStep.productionAreaId fillingPat)

/-- Conflict test of findSuitableEmployees against one existing task: the
candidate instant falls inside the existing assignment interval, or the
existing start falls inside the window of length timePerKg minutes after the
candidate instant (the source adds processStep.timePerKg * 60000
milliseconds, i.e. timePerKg minutes, not the full step duration). -/
def hasConflictWith (processStep : ProcessStep) (taskTime : ℤ) (employee : Employee)
    (task : ScheduledTask) : Bool :=
  task.employeeId == employee.id &&
    (decide (task.startTime ≤ taskTime ∧ taskTime < task.endTime) ||
     decide (taskTime < task.startTime ∧
       task.startTime < taskTime + (processStep.timePerKg : ℤ)))

/-- Source findSuitableEmployees: skill superset test, working-time window
test on the hour of day, and the conflict test above against the assignments
already placed.  The isAvailable flag is not consulted here. -/
def findSuitableEmployees (processStep : ProcessStep) (taskTime : ℤ)
    (allEmployees : List Employee) (existingTasks : List ScheduledTask) : List Employee :=
  allEmployees.filter fun employee =>
    let hasRequiredSkills :=
      processStep.requiredSkills.all fun skill => employee.skills.contains skill
    let taskHour := hourOfDayMinutes taskTime
    let workStart := parseTimeString employee.workingTimeModel.startTime
    let workEnd := parseTimeString employee.workingTimeModel.endTime
    let hasConflict := existingTasks.any (hasConflictWith processStep taskTime employee)
    hasRequiredSkills &&
      !(decide (taskHour < workStart) || decide (workEnd < taskHour)) &&
      !hasConflict

/-- Return record of checkDependencies. -/
structure DependencyResult where
  met : Bool
  reason : String
deriving DecidableEq

/-- Reason string of the unmet case. -/
def dependencyReason : String := "Preparation steps must be completed before filling"

/-- Source checkDependencies: a filling-area step is met iff some already
placed task of the same order sits in a preparation area; other steps are
always met. -/
def checkDependencies (orderId : String) (processStep : ProcessStep)
    (existingTasks : List ScheduledTask) : DependencyResult :=
  if optIncludes processStep.productionAreaId fillingPat then
    let orderPreparationTasks := existingTasks.filter fun task =>
      task.orderId == orderId && strIncludes task.productionAreaId prepPat
    if orderPreparationTasks.length == 0 then
      { met := false, reason := dependencyReason }
    else
      { met := true, reason := "" }
  else
    { met := true, reason := "" }

/-- Shared loop state of a scheduling pass: accumulated tasks and issues and
the shared clock. -/
structure PassState where
  tasks : List ScheduledTask
  issues : List Issue
  currentTime : ℤ
deriving DecidableEq

/-- Fixed preparation start, 06:00, as minutes into the day. -/
def preparationStartTime : ℤ := 6 * 60

/-- Fixed filling end, 17:00, as minutes into the day. -/
def fillingEndTime : ℤ := 17 * 60

/-- The per-employee assignment records pushed by the inner assignment loop:
one record per index below requiredEmployees (and below the suitable list
length, which List.take encodes). -/
def makeTasks (order : ProductionOrder) (orderStep : OrderProcessStep)
    (processStep : ProcessStep) (suitableEmployees : List Employee)
    (startTime endTime : ℤ) (durationMinutes : ℕ) : List ScheduledTask :=
  (suitableEmployees.take processStep.requiredEmployees).map fun emp =>
    { orderId := order.id
      orderProcessStepId := orderStep.id
      processStepId := processStep.id
      employeeId := emp.id
      startTime := startTime
      endTime := endTime
      estimatedDuration := durationMinutes
      productionAreaId := processStep.productionAreaId.getD "" }

/-- Body of the inner loop of schedulePreparationRooms for one order step. -/
def prepStepIter (processSteps : List ProcessStep) (availableEmployees : List Employee)
    (order : ProductionOrder) (st : PassState) (orderStep : OrderProcessStep) : PassState :=
  match processSteps.find? (fun ps => ps.id == orderStep.processStepId) with
  | none => st
  | some processStep =>
    let suitableEmployees :=
      findSuitableEmployees processStep st.currentTime availableEmployees st.tasks
    if suitableEmployees.length < processStep.requiredEmployees then
      { st with issues := st.issues ++
          [Issue.insufficientStaff processStep.name order.productName
            processStep.requiredEmployees suitableEmployees.length] }
    else
      let durationMinutes := processStep.timePerKg * order.totalQuantity
      let endTime := st.currentTime + (durationMinutes : ℤ)
      { tasks := st.tasks ++
          makeTasks order orderStep processStep suitableEmployees
            st.currentTime endTime durationMinutes
        issues := st.issues
        currentTime := endTime }

/-- One order of the preparation pass: its preparation steps in sequence
order, folded through prepStepIter. -/
def prepOrderIter (processSteps : List ProcessStep) (availableEmployees : List Employee)
    (st : PassState) (order : ProductionOrder) : PassState :=
  (getPreparationStepsForOrder order).foldl
    (prepStepIter processSteps availableEmployees order) st

/-- Source schedulePreparationRooms: forward walk from 06:00 over the orders
in sequence, returning the pass tasks and issues. -/
def schedulePreparationRooms (processSteps : List ProcessStep)
    (orders : List ProductionOrder) (availableEmployees : List Employee) :
    List ScheduledTask × List Issue :=
  let final := orders.foldl (prepOrderIter processSteps availableEmployees)
    { tasks := [], issues := [], currentTime := preparationStartTime }
  (final.tasks, final.issues)

/-- Body of the inner loop of scheduleFillingRoom for one order step. -/
def fillStepIter (processSteps : List ProcessStep) (availableEmployees : List Employee)
    (preparationTasks : List ScheduledTask) (order : ProductionOrder)
    (st : PassState) (orderStep : OrderProcessStep) : PassState :=
  match processSteps.find? (fun ps => ps.id == orderStep.processStepId) with
  | none => st
  | some processStep =>
    let dependencyMet := checkDependencies order.id processStep preparationTasks
    if !dependencyMet.met then
      { st with issues := st.issues ++
          [Issue.dependencyNotMet processStep.name order.productName dependencyMet.reason] }
    else
      let durationMinutes := processStep.timePerKg * order.totalQuantity
      let startTime := st.currentTime - (durationMinutes : ℤ)
      let suitableEmployees :=
        findSuitableEmployees processStep startTime availableEmployees
          (st.tasks ++ preparationTasks)
      if suitableEmployees.length < processStep.requiredEmployees then
        { st with issues := st.issues ++
            [Issue.insufficientStaff processStep.name order.productName
              processStep.requiredEmployees suitableEmployees.length] }
      else
        { tasks := st.tasks ++
            makeTasks order orderStep processStep suitableEmployees
              startTime st.currentTime durationMinutes
          issues := st.issues
          currentTime := startTime }

/-- One order of the filling pass: its filling steps in reverse sequence
order, folded through fillStepIter. -/
def fillOrderIter (processSteps : List ProcessStep) (availableEmployees : List Employee)
    (preparationTasks : List ScheduledTask) (st : PassState)
    (order : ProductionOrder) : PassState :=
  ((getFillingStepsForOrder order).reverse).foldl
    (fillStepIter processSteps availableEmployees preparationTasks order) st

/-- Source scheduleFillingRoom: backward walk from 17:00 over the orders in
reverse, returning the pass tasks and issues. -/
def scheduleFillingRoom (processSteps : List ProcessStep)
    (orders : List ProductionOrder) (availableEmployees : List Employee)
    (preparationTasks : List ScheduledTask) : List ScheduledTask × List Issue :=
  let final := (orders.reverse).foldl
    (fillOrderIter processSteps availableEmployees preparationTasks)
    { tasks := [], issues := [], currentTime := fillingEndTime }
  (final.tasks, final.issues)

/-- First occurrence of each element, in order: the key sequence of a
JavaScript Map or Set filled by iteration. -/
def firstOccurrences : List String → List String
  | [] => []
  | x :: xs => x :: (firstOccurrences xs).filter (fun y => !(y == x))

/-- Number of adjacent pairs, in a list sorted by start time, whose second
member starts strictly before the first ends: one overlap issue is pushed per
such pair. -/
def adjacentOverlapCount : List ScheduledTask → ℕ
  | a :: b :: rest => (if b.startTime < a.endTime then 1 else 0) + adjacentOverlapCount (b :: rest)
  | _ => 0

/-- The issues validateSchedule produces while processing the task group of
one employee id: the adjacent-overlap issues over the group sorted by start
time, then at most one max-hours issue.  Employee ids with no matching
employee record are skipped.  The source compares total fractional hours with
maxHours; both sides are represented scaled by 60. -/
def validateEmployeeTasks (employees : List Employee) (tasks : List ScheduledTask)
    (employeeId : String) : List Issue :=
  match employees.find? (fun e => e.id == employeeId) with
  | none => []
  | some employee =>
    let empTasks := tasks.filter fun t => t.employeeId == employeeId
    let sortedTasks := sortByKey (fun t => t.startTime) empTasks
    let overlapIssues :=
      List.replicate (adjacentOverlapCount sortedTasks)
        (Issue.overlappingAssignments employee.name)
    let totalMinutes := empTasks.foldl (fun sum t => sum + (t.endTime - t.startTime)) 0
    if 60 * employee.workingTimeModel.maxHours < totalMinutes then
      overlapIssues ++
        [Issue.exceedsMaxHours employee.name totalMinutes employee.workingTimeModel.maxHours]
    else
      overlapIssues

/-- Source validateSchedule: group the tasks by employee id in first
occurrence order and concatenate the per-group issues. -/
def validateSchedule (tasks : List ScheduledTask) (employees : List Employee) : List Issue :=
  (firstOccurrences (tasks.map fun t => t.employeeId)).flatMap
    (validateEmployeeTasks employees tasks)

/-- Source generateRecommendations.  The utilization and mean-duration
thresholds are float divisions in the source; they are represented by exact
cross-multiplied comparisons, which agree with the float comparisons in every
case including a zero denominator (where the float side is NaN or Infinity). -/
def generateRecommendations (processSteps : List ProcessStep) (tasks : List ScheduledTask)
    (employees : List Employee) (totalOrders : ℕ) : List Recommendation :=
  let assignedEmployees := (firstOccurrences (tasks.map fun t => t.employeeId)).length
  let availableEmployees := (employees.filter fun e => e.isAvailable).length
  let low :=
    if 100 * assignedEmployees < 70 * availableEmployees then
      [Recommendation.lowUtilization assignedEmployees availableEmployees]
    else []
  let high :=
    if 95 * availableEmployees < 100 * assignedEmployees then
      [Recommendation.highUtilization assignedEmployees availableEmployees]
    else []
  let requiredSkills := firstOccurrences (processSteps.flatMap fun step => step.requiredSkills)
  let availableSkills := (employees.filter fun e => e.isAvailable).flatMap fun e => e.skills
  let gaps := (requiredSkills.filter fun skill => !(availableSkills.contains skill)).map
    Recommendation.skillGap
  let longTasks :=
    if 0 < tasks.length ∧
        240 * tasks.length < (tasks.map fun t => t.estimatedDuration).sum then
      [Recommendation.breakDownLongTasks]
    else []
  let _ := totalOrders
  low ++ high ++ gaps ++ longTasks

/-- The three storage reads the engine performs before the try block. -/
structure LoadedData where
  employees : List Employee
  processSteps : List ProcessStep
  orders : List ProductionOrder
deriving DecidableEq

/-- Body of generateOptimalSchedule once the storage reads have succeeded.
tryFailure models an unexpected exception raised anywhere inside the try
block (scheduling passes, validation, recommendations or persistence); the
catch clause turns it into the synthetic single-issue result.  Persistence
has no effect on the returned record and is not modelled further. -/
def generateOptimalScheduleLoaded (data : LoadedData) (tryFailure : Option String) :
    SchedulingResult :=
  let availableEmployees := data.employees.filter fun emp => emp.isAvailable
  if data.orders.isEmpty then
    { tasks := [], feasible := true, issues := [], recommendations := [Recommendation.noOrders] }
  else
    match tryFailure with
    | some msg =>
      { tasks := [], feasible := false, issues := [Issue.schedulingFailed msg],
        recommendations := [Recommendation.reviewInput] }
    | none =>
      let sortedOrders := sortOrdersByQuantity data.orders
      let preparation := schedulePreparationRooms data.processSteps sortedOrders availableEmployees
      let filling := scheduleFillingRoom data.processSteps sortedOrders availableEmployees
        preparation.1
      let tasks := preparation.1 ++ filling.1
      let validationIssues := validateSchedule tasks availableEmployees
      let issues := preparation.2 ++ filling.2 ++ validationIssues
      { tasks := tasks
        feasible := issues.isEmpty
        issues := issues
        recommendations :=
          generateRecommendations data.processSteps tasks availableEmployees data.orders.length }

/-- Source generateOptimalSchedule.  The storage reads at the top of the
method sit outside the try block, so an exception there propagates to the
caller as a rejected promise (the error branch) instead of being converted
into a SchedulingResult. -/
def generateOptimalSchedule (loadResult : Except String LoadedData)
    (tryFailure : Option String) : Except String SchedulingResult :=
  match loadResult with
  | Except.error e => Except.error e
  | Except.ok data => Except.ok (generateOptimalScheduleLoaded data tryFailure)

/-- Two assignment intervals, each read as the half-open span from start to
end, share at least one instant. -/
def TasksOverlap (a b : ScheduledTask) : Prop :=
  a.startTime < b.endTime ∧ b.startTime < a.endTime

instance (a b : ScheduledTask) : Decidable (TasksOverlap a b) :=
  inferInstanceAs (Decidable (_ ∧ _))

/-- Number of overlap issues in an issue list. -/
def overlapIssueCount (issues : List Issue) : ℕ :=
  issues.countP fun i =>
    match i with
    | Issue.overlappingAssignments _ => true
    | _ => false

/-- Sample employee used by the concrete witness instances below. -/
def exValEmp : Employee :=
  { id := "e1"
    name := "Vera"
    skills := ["packaging"]
    workingTimeModel :=
      { startTime := "06:00"
        endTime := "18:00"
        maxHours := 8
        breakTime := 30 }
    isAvailable := true }

/-- Sample assignment 06:00 to 16:00 for the witness of the validator
property. -/
def exValT1 : ScheduledTask :=
  { orderId := "o1"
    orderProcessStepId := "os1"
    processStepId := "s1"
    employeeId := "e1"
    startTime := 360
    endTime := 960
    estimatedDuration := 600
    productionAreaId := "prep-1" }

/-- Sample assignment 11:00 to 17:00 for the witness of the validator
property; it overlaps exValT1. -/
def exValT2 : ScheduledTask :=
  { orderId := "o2"
    orderProcessStepId := "os2"
    processStepId := "s2"
    employeeId := "e1"
    startTime := 660
    endTime := 1020
    estimatedDuration := 360
    productionAreaId := "filling-1" }

/-- Filling step template of 1 minute per kg for the matcher evaluation:
with the order quantity 10 the full step duration is 10 minutes. -/
def exC1Step : ProcessStep :=
  { id := "s1"
    name := "Filling"
    requiredSkills := []
    timePerKg := 1
    requiredEmployees := 1
    productionAreaId := some ("filling-1") }

/-- Order of quantity 10 for the matcher evaluation. -/
def exC1Order : ProductionOrder :=
  { id := "o1"
    productName := "Soup"
    totalQuantity := 10
    priority := "medium"
    processSteps := [] }

/-- Worker with no skill or window obstacle for the matcher evaluation. -/
def exC1Emp : Employee :=
  { id := "e1"
    name := "Omar"
    skills := []
    workingTimeModel :=
      { startTime := "00:00"
        endTime := "23:59"
        maxHours := 8
        breakTime := 30 }
    isAvailable := true }

/-- Existing assignment of the same worker over 06:02 to 06:03, inside the
full candidate interval 06:00 to 06:10 but past the one-minute window the
source actually checks. -/
def exC1Existing : ScheduledTask :=
  { orderId := "o0"
    orderProcessStepId := "os0"
    processStepId := "s0"
    employeeId := "e1"
    startTime := 362
    endTime := 363
    estimatedDuration := 1
    productionAreaId := "filling-1" }

/-- Understaffed preparation step template (two workers required) for the
witness of the skip behaviour. -/
def exC6Step : ProcessStep :=
  { id := "s6"
    name := "Mixing"
    requiredSkills := ["mixing"]
    timePerKg := 2
    requiredEmployees := 2
    productionAreaId := some ("prep-1") }

/-- Order step referencing exC6Step. -/
def exC6OrderStep : OrderProcessStep :=
  { id := "os6"
    processStepId := "s6"
    sequence := 1
    processStep := exC6Step }

/-- Order carrying exC6OrderStep. -/
def exC6Order : ProductionOrder :=
  { id := "o6"
    productName := "Stew"
    totalQuantity := 100
    priority := "medium"
    processSteps := [exC6OrderStep] }

/-- The single qualified worker (one short of the required two). -/
def exC6Emp : Employee :=
  { id := "e2"
    name := "Ben"
    skills := ["mixing"]
    workingTimeModel :=
      { startTime := "06:00"
        endTime := "14:00"
        maxHours := 8
        breakTime := 30 }
    isAvailable := true }

/-- Minimal order for the witness of the caught-error result shape. -/
def exC9Order : ProductionOrder :=
  { id := "o9"
    productName := "Sauce"
    totalQuantity := 5
    priority := "low"
    processSteps := [] }

/-- Bookkeeping property of one produced assignment: exact duration
equation, positive extent, and the duration formula timePerKg times
totalQuantity of the referenced order and step. -/
def AssignmentSpec (orders : List ProductionOrder) (processSteps : List ProcessStep)
    (t : ScheduledTask) : Prop :=
  t.endTime - t.startTime = (t.estimatedDuration : ℤ) ∧
  t.startTime < t.endTime ∧
  ∃ o ∈ orders, ∃ p ∈ processSteps,
    t.orderId = o.id ∧ t.processStepId = p.id ∧
    t.estimatedDuration = p.timePerKg * o.totalQuantity

/-- Preparation step template for the duration witness. -/
def exC4Step : ProcessStep :=
  { id := "s4"
    name := "Peeling"
    requiredSkills := ["peeling"]
    timePerKg := 2
    requiredEmployees := 1
    productionAreaId := some ("prep-1") }

/-- Order step referencing exC4Step. -/
def exC4OrderStep : OrderProcessStep :=
  { id := "os4"
    processStepId := "s4"
    sequence := 1
    processStep := exC4Step }

/-- Order of quantity 100 for the duration witness. -/
def exC4Order : ProductionOrder :=
  { id := "o4"
    productName := "Salad"
    totalQuantity := 100
    priority := "high"
    processSteps := [exC4OrderStep] }

/-- Qualified worker for the duration witness. -/
def exC4Emp : Employee :=
  { id := "e4"
    name := "Dana"
    skills := ["peeling"]
    workingTimeModel :=
      { startTime := "06:00"
        endTime := "14:00"
        maxHours := 8
        breakTime := 30 }
    isAvailable := true }

/-- The assignment the preparation pass places in the duration witness
scenario: 06:00 to 09:20, 200 minutes. -/
def exC4Task : ScheduledTask :=
  { orderId := "o4"
    orderProcessStepId := "os4"
    processStepId := "s4"
    employeeId := "e4"
    startTime := 360
    endTime := 560
    estimatedDuration := 200
    productionAreaId := "prep-1" }

/-- Filling step with headcount one for the backward-anchor counterexample. -/
def exC5Step1 : ProcessStep :=
  { id := "f1"
    name := "Fill A"
    requiredSkills := []
    timePerKg := 6
    requiredEmployees := 1
    productionAreaId := some ("filling-1") }

/-- Filling step with headcount zero for the backward-anchor counterexample:
it passes the staffing check, creates no assignment, and still retreats the
clock. -/
def exC5Step2 : ProcessStep :=
  { id := "f2"
    name := "Fill B"
    requiredSkills := []
    timePerKg := 6
    requiredEmployees := 0
    productionAreaId := some ("filling-1") }

/-- Order step referencing exC5Step1. -/
def exC5OS1 : OrderProcessStep :=
  { id := "fos1"
    processStepId := "f1"
    sequence := 1
    processStep := exC5Step1 }

/-- Order step referencing exC5Step2. -/
def exC5OS2 : OrderProcessStep :=
  { id := "fos2"
    processStepId := "f2"
    sequence := 2
    processStep := exC5Step2 }

/-- Order of quantity 10 with the two filling steps above. -/
def exC5Order : ProductionOrder :=
  { id := "o5"
    productName := "Yogurt"
    totalQuantity := 10
    priority := "medium"
    processSteps := [exC5OS1, exC5OS2] }

/-- Unconstrained worker for the backward-anchor counterexample. -/
def exC5Emp : Employee :=
  { id := "e5"
    name := "Finn"
    skills := []
    workingTimeModel :=
      { startTime := "00:00"
        endTime := "23:59"
        maxHours := 8
        breakTime := 30 }
    isAvailable := true }

/-- Preparation assignment of the same order (by another worker), so the
dependency check passes. -/
def exC5Prep : ScheduledTask :=
  { orderId := "o5"
    orderProcessStepId := "pos1"
    processStepId := "p1"
    employeeId := "e9"
    startTime := 360
    endTime := 370
    estimatedDuration := 10
    productionAreaId := "prep-1" }

/-- Filling step for the backward-anchor witness. -/
def exC5WStep : ProcessStep :=
  { id := "g1"
    name := "Pack"
    requiredSkills := []
    timePerKg := 1
    requiredEmployees := 1
    productionAreaId := some ("filling-1") }

/-- Order step referencing exC5WStep. -/
def exC5WOS : OrderProcessStep :=
  { id := "gos1"
    processStepId := "g1"
    sequence := 1
    processStep := exC5WStep }

/-- Order of quantity 60 for the backward-anchor witness. -/
def exC5WOrder : ProductionOrder :=
  { id := "o5w"
    productName := "Jam"
    totalQuantity := 60
    priority := "low"
    processSteps := [exC5WOS] }

/-- Worker for the backward-anchor witness. -/
def exC5WEmp : Employee :=
  { id := "e5w"
    name := "Gerd"
    skills := []
    workingTimeModel :=
      { startTime := "06:00"
        endTime := "18:00"
        maxHours := 8
        breakTime := 30 }
    isAvailable := true }

/-- Preparation assignment of the witness order by another worker. -/
def exC5WPrep : ScheduledTask :=
  { orderId := "o5w"
    orderProcessStepId := "pos2"
    processStepId := "p2"
    employeeId := "e9"
    startTime := 360
    endTime := 420
    estimatedDuration := 60
    productionAreaId := "prep-1" }

/-- Preparation step shared by the two orders of the sequencing witness. -/
def exC7Step : ProcessStep :=
  { id := "s7"
    name := "Chop"
    requiredSkills := []
    timePerKg := 1
    requiredEmployees := 1
    productionAreaId := some ("prep-1") }

/-- Order step of the small order. -/
def exC7OSa : OrderProcessStep :=
  { id := "os7a"
    processStepId := "s7"
    sequence := 1
    processStep := exC7Step }

/-- Order step of the large order. -/
def exC7OSb : OrderProcessStep :=
  { id := "os7b"
    processStepId := "s7"
    sequence := 1
    processStep := exC7Step }

/-- The 50 kg order (low priority). -/
def exC7O1 : ProductionOrder :=
  { id := "o7a"
    productName := "Small"
    totalQuantity := 50
    priority := "low"
    processSteps := [exC7OSa] }

/-- The 200 kg order (high priority). -/
def exC7O2 : ProductionOrder :=
  { id := "o7b"
    productName := "Large"
    totalQuantity := 200
    priority := "high"
    processSteps := [exC7OSb] }

/-- Worker for the sequencing witness. -/
def exC7Emp : Employee :=
  { id := "e7"
    name := "Hana"
    skills := []
    workingTimeModel :=
      { startTime := "06:00"
        endTime := "18:00"
        maxHours := 8
        breakTime := 30 }
    isAvailable := true }

/-- Assignment of the 50 kg order in the sequencing witness: 06:00 to
06:50. -/
def exC7T1 : ScheduledTask :=
  { orderId := "o7a"
    orderProcessStepId := "os7a"
    processStepId := "s7"
    employeeId := "e7"
    startTime := 360
    endTime := 410
    estimatedDuration := 50
    productionAreaId := "prep-1" }

/-- Assignment of the 200 kg order in the sequencing witness: 06:50 to
10:10. -/
def exC7T2 : ScheduledTask :=
  { orderId := "o7b"
    orderProcessStepId := "os7b"
    processStepId := "s7"
    employeeId := "e7"
    startTime := 410
    endTime := 610
    estimatedDuration := 200
    productionAreaId := "prep-1" }

theorem foldl_preserves {α σ : Type} {P : σ → Prop} {f : σ → α → σ} :
    ∀ l : List α, (∀ s a, a ∈ l → P s → P (f s a)) → ∀ s, P s → P (l.foldl f s)
  | [], _, _, hs => hs
  | a :: l, h, s, hs =>
    foldl_preserves l (fun s b hb => h s b (List.mem_cons_of_mem a hb)) (f s a)
      (h s a (List.mem_cons_self a l) hs)

theorem insertLe_perm {α : Type} (le : α → α → Bool) (a : α) :
    ∀ l : List α, (insertLe le a l).Perm (a :: l) := by
  intro l
  induction l with
  | nil => simp [insertLe]
  | cons b t ih =>
    simp only [insertLe]
    split
    · exact List.Perm.refl _
    · exact (List.Perm.cons b ih).trans (List.Perm.swap a b t)

theorem sortLe_perm {α : Type} (le : α → α → Bool) :
    ∀ l : List α, (sortLe le l).Perm l := by
  intro l
  induction l with
  | nil => exact List.Perm.refl _
  | cons a t ih =>
    simpa [sortLe] using (insertLe_perm le a (sortLe le t)).trans (List.Perm.cons a ih)

theorem mem_insertLe {α : Type} {le : α → α → Bool} {a x : α} {l : List α} :
    x ∈ insertLe le a l ↔ x = a ∨ x ∈ l := by
  rw [(insertLe_perm le a l).mem_iff, List.mem_cons]

theorem pairwise_insertLe {α : Type} {le : α → α → Bool}
    (htot : ∀ a b, le a b = true ∨ le b a = true)
    (htr : ∀ a b c, le a b = true → le b c = true → le a c = true) (a : α) :
    ∀ l : List α, l.Pairwise (fun x y => le x y = true) →
      (insertLe le a l).Pairwise (fun x y => le x y = true) := by
  intro l
  induction l with
  | nil => intro _; simp [insertLe]
  | cons b t ih =>
    intro hp
    rcases List.pairwise_cons.mp hp with ⟨hb, ht⟩
    simp only [insertLe]
    split
    · rename_i hab
      refine List.pairwise_cons.mpr ⟨?_, hp⟩
      intro x hx
      rcases List.mem_cons.mp hx with h | h
      · exact h ▸ hab
      · exact htr a b x hab (hb x h)
    · rename_i hab
      have hba : le b a = true := by
        rcases htot a b with h | h
        · exact absurd h hab
        · exact h
      refine List.pairwise_cons.mpr ⟨?_, ih ht⟩
      intro x hx
      rcases mem_insertLe.mp hx with h | h
      · exact h ▸ hba
      · exact hb x h

theorem sortLe_pairwise {α : Type} {le : α → α → Bool}
    (htot : ∀ a b, le a b = true ∨ le b a = true)
    (htr : ∀ a b c, le a b = true → le b c = true → le a c = true) :
    ∀ l : List α, (sortLe le l).Pairwise (fun x y => le x y = true) := by
  intro l
  induction l with
  | nil => simp [sortLe]
  | cons a t ih => exact pairwise_insertLe htot htr a (sortLe le t) ih

theorem sortByKey_perm {α : Type} (key : α → ℤ) (l : List α) :
    (sortByKey key l).Perm l :=
  sortLe_perm _ l

theorem mem_sortByKey {α : Type} {key : α → ℤ} {l : List α} {x : α} :
    x ∈ sortByKey key l ↔ x ∈ l :=
  (sortByKey_perm key l).mem_iff

theorem sortByKey_pairwise {α : Type} (key : α → ℤ) (l : List α) :
    (sortByKey key l).Pairwise (fun a b => key a ≤ key b) := by
  have h := @sortLe_pairwise α (fun a b : α => decide (key a ≤ key b))
    (fun a b => by
      rcases le_total (key a) (key b) with h | h
      · exact Or.inl (decide_eq_true h)
      · exact Or.inr (decide_eq_true h))
    (fun a b c hab hbc => decide_eq_true (le_trans (of_decide_eq_true hab) (of_decide_eq_true hbc)))
    l
  refine h.imp ?_
  intro a b hab
  exact of_decide_eq_true hab

theorem countP_replicate_eval {α : Type} (p : α → Bool) (a : α) :
    ∀ n : ℕ, (List.replicate n a).countP p = if p a then n else 0 := by
  intro n
  induction n with
  | zero => simp
  | succ n ih =>
    rw [List.replicate_succ, List.countP_cons, ih]
    by_cases h : p a = true
    · simp [h]
    · simp [h]

theorem pairwise_end_le_of_no_adjacent :
    ∀ s : List ScheduledTask,
      s.Pairwise (fun a b => a.startTime ≤ b.startTime) →
      adjacentOverlapCount s = 0 →
      s.Pairwise fun a b => a.endTime ≤ b.startTime
  | [], _, _ => List.Pairwise.nil
  | [_], _, _ => by simp
  | a :: b :: t, hs, hc => by
    have hsorted_tail := (List.pairwise_cons.mp hs).2
    simp only [adjacentOverlapCount] at hc
    have h1 : ¬ b.startTime < a.endTime := by
      by_contra h
      simp [h] at hc
    have h2 : adjacentOverlapCount (b :: t) = 0 := (Nat.add_eq_zero.mp hc).2
    have ih := pairwise_end_le_of_no_adjacent (b :: t) hsorted_tail h2
    refine List.pairwise_cons.mpr ⟨?_, ih⟩
    intro x hx
    rcases List.mem_cons.mp hx with rfl | hx
    · exact le_of_not_lt h1
    · exact le_trans (le_of_not_lt h1) ((List.pairwise_cons.mp hsorted_tail).1 x hx)

theorem not_pairwise_of_adjacent :
    ∀ s : List ScheduledTask,
      s.Pairwise (fun a b => a.startTime ≤ b.startTime) →
      (∀ u ∈ s, u.startTime < u.endTime) →
      adjacentOverlapCount s ≠ 0 →
      ¬ s.Pairwise fun a b => ¬ TasksOverlap a b
  | [], _, _, hc => absurd rfl hc
  | [_], _, _, hc => absurd rfl hc
  | a :: b :: t, hs, hwf, hc => by
    simp only [adjacentOverlapCount] at hc
    by_cases hov : b.startTime < a.endTime
    · intro hp
      have hnov := (List.pairwise_cons.mp hp).1 b (List.mem_cons_self b t)
      have hab : a.startTime ≤ b.startTime := (List.pairwise_cons.mp hs).1 b (List.mem_cons_self b t)
      have hbwf : b.startTime < b.endTime := hwf b (List.mem_cons_of_mem a (List.mem_cons_self b t))
      exact hnov ⟨lt_of_le_of_lt hab hbwf, hov⟩
    · have hc2 : adjacentOverlapCount (b :: t) ≠ 0 := by
        simpa [hov] using hc
      have ih := not_pairwise_of_adjacent (b :: t) (List.pairwise_cons.mp hs).2
        (fun u hu => hwf u (List.mem_cons_of_mem a hu)) hc2
      intro hp
      exact ih (List.pairwise_cons.mp hp).2

theorem group_overlap_iff_adjacent (g : List ScheduledTask)
    (hwf : ∀ u ∈ g, u.startTime < u.endTime) :
    (¬ g.Pairwise fun a b => ¬ TasksOverlap a b) ↔
      adjacentOverlapCount (sortByKey (fun u => u.startTime) g) ≠ 0 := by
  have hperm := sortByKey_perm (fun u : ScheduledTask => u.startTime) g
  have hsorted := sortByKey_pairwise (fun u : ScheduledTask => u.startTime) g
  have hsym : ∀ {x y : ScheduledTask},
      (¬ TasksOverlap x y) → ¬ TasksOverlap y x := fun h hov => h ⟨hov.2, hov.1⟩
  have htransfer := hperm.pairwise_iff (R := fun a b => ¬ TasksOverlap a b) hsym
  constructor
  · intro hnp
    by_contra hcz
    have hle := pairwise_end_le_of_no_adjacent _ hsorted hcz
    have : (sortByKey (fun u => u.startTime) g).Pairwise fun a b => ¬ TasksOverlap a b :=
      hle.imp fun h hov => absurd hov.2 (not_lt.mpr h)
    exact hnp (htransfer.mp this)
  · intro hcnz hp
    have hwfs : ∀ u ∈ sortByKey (fun u : ScheduledTask => u.startTime) g,
        u.startTime < u.endTime := fun u hu => hwf u (mem_sortByKey.mp hu)
    exact not_pairwise_of_adjacent _ hsorted hwfs hcnz (htransfer.mpr hp)

theorem overlapIssueCount_validateEmployeeTasks (employees : List Employee)
    (tasks : List ScheduledTask) (employeeId : String) (employee : Employee)
    (hfind : employees.find? (fun e => e.id == employeeId) = some employee) :
    overlapIssueCount (validateEmployeeTasks employees tasks employeeId) =
      adjacentOverlapCount (sortByKey (fun u => u.startTime)
        (tasks.filter fun t => t.employeeId == employeeId)) := by
  unfold validateEmployeeTasks
  rw [hfind]
  simp only [overlapIssueCount]
  split
  · rw [List.countP_append, countP_replicate_eval]
    simp
  · rw [countP_replicate_eval]
    simp

theorem mem_makeTasks {order : ProductionOrder} {orderStep : OrderProcessStep}
    {processStep : ProcessStep} {suit : List Employee} {s e : ℤ} {d : ℕ}
    {t : ScheduledTask} (ht : t ∈ makeTasks order orderStep processStep suit s e d) :
    t.orderId = order.id ∧ t.orderProcessStepId = orderStep.id ∧
    t.processStepId = processStep.id ∧ t.startTime = s ∧ t.endTime = e ∧
    t.estimatedDuration = d ∧ ∃ emp ∈ suit, t.employeeId = emp.id := by
  simp only [makeTasks, List.mem_map] at ht
  obtain ⟨emp, hemp, rfl⟩ := ht
  exact ⟨rfl, rfl, rfl, rfl, rfl, rfl, emp, List.mem_of_mem_take hemp, rfl⟩

theorem makeTasks_ne_nil (order : ProductionOrder) (orderStep : OrderProcessStep)
    (processStep : ProcessStep) (suit : List Employee) (s e : ℤ) (d : ℕ)
    (hreq : 1 ≤ processStep.requiredEmployees)
    (hlen : processStep.requiredEmployees ≤ suit.length) :
    makeTasks order orderStep processStep suit s e d ≠ [] := by
  have hlen2 : (makeTasks order orderStep processStep suit s e d).length =
      processStep.requiredEmployees := by
    simp [makeTasks, List.length_take, Nat.min_eq_left hlen]
  intro hnil
  rw [hnil] at hlen2
  simp at hlen2
  omega

theorem prepStepIter_cases (processSteps : List ProcessStep)
    (availableEmployees : List Employee) (order : ProductionOrder)
    (st : PassState) (orderStep : OrderProcessStep) :
    prepStepIter processSteps availableEmployees order st orderStep = st ∨
    (∃ i, prepStepIter processSteps availableEmployees order st orderStep =
      { st with issues := st.issues ++ [i] }) ∨
    ∃ processStep,
      processSteps.find? (fun ps => ps.id == orderStep.processStepId) = some processStep ∧
      processStep.requiredEmployees ≤
        (findSuitableEmployees processStep st.currentTime availableEmployees st.tasks).length ∧
      prepStepIter processSteps availableEmployees order st orderStep =
        { tasks := st.tasks ++
            makeTasks order orderStep processStep
              (findSuitableEmployees processStep st.currentTime availableEmployees st.tasks)
              st.currentTime
              (st.currentTime + (processStep.timePerKg * order.totalQuantity : ℕ))
              (processStep.timePerKg * order.totalQuantity)
          issues := st.issues
          currentTime := st.currentTime + (processStep.timePerKg * order.totalQuantity : ℕ) } := by
  unfold prepStepIter
  cases hfind : processSteps.find? (fun ps => ps.id == orderStep.processStepId) with
  | none => exact Or.inl rfl
  | some processStep =>
    by_cases hshort : (findSuitableEmployees processStep st.currentTime availableEmployees
        st.tasks).length < processStep.requiredEmployees
    · refine Or.inr (Or.inl
        ⟨Issue.insufficientStaff processStep.name order.productName
          processStep.requiredEmployees
          (findSuitableEmployees processStep st.currentTime availableEmployees st.tasks).length,
          ?_⟩)
      simp only [if_pos hshort]
    · refine Or.inr (Or.inr ⟨processStep, rfl, not_lt.mp hshort, ?_⟩)
      simp only [if_neg hshort]

theorem fillStepIter_cases (processSteps : List ProcessStep)
    (availableEmployees : List Employee) (preparationTasks : List ScheduledTask)
    (order : ProductionOrder) (st : PassState) (orderStep : OrderProcessStep) :
    fillStepIter processSteps availableEmployees preparationTasks order st orderStep = st ∨
    (∃ i, fillStepIter processSteps availableEmployees preparationTasks order st orderStep =
      { st with issues := st.issues ++ [i] }) ∨
    ∃ processStep,
      processSteps.find? (fun ps => ps.id == orderStep.processStepId) = some processStep ∧
      processStep.requiredEmployees ≤
        (findSuitableEmployees processStep
          (st.currentTime - (processStep.timePerKg * order.totalQuantity : ℕ))
          availableEmployees (st.tasks ++ preparationTasks)).length ∧
      fillStepIter processSteps availableEmployees preparationTasks order st orderStep =
        { tasks := st.tasks ++
            makeTasks order orderStep processStep
              (findSuitableEmployees processStep
                (st.currentTime - (processStep.timePerKg * order.totalQuantity : ℕ))
                availableEmployees (st.tasks ++ preparationTasks))
              (st.currentTime - (processStep.timePerKg * order.totalQuantity : ℕ))
              st.currentTime
              (processStep.timePerKg * order.totalQuantity)
          issues := st.issues
          currentTime := st.currentTime - (processStep.timePerKg * order.totalQuantity : ℕ) } := by
  unfold fillStepIter
  cases hfind : processSteps.find? (fun ps => ps.id == orderStep.processStepId) with
  | none => exact Or.inl rfl
  | some processStep =>
    by_cases hdep : (checkDependencies order.id processStep preparationTasks).met = true
    · have hdep2 : (!(checkDependencies order.id processStep preparationTasks).met) = false := by
        simp [hdep]
      by_cases hshort : (findSuitableEmployees processStep
          (st.currentTime - (processStep.timePerKg * order.totalQuantity : ℕ))
          availableEmployees (st.tasks ++ preparationTasks)).length <
          processStep.requiredEmployees
      · refine Or.inr (Or.inl
          ⟨Issue.insufficientStaff processStep.name order.productName
            processStep.requiredEmployees
            (findSuitableEmployees processStep
              (st.currentTime - (processStep.timePerKg * order.totalQuantity : ℕ))
              availableEmployees (st.tasks ++ preparationTasks)).length, ?_⟩)
        simp only [hdep2, Bool.false_eq_true, if_false, if_pos hshort]
      · refine Or.inr (Or.inr ⟨processStep, rfl, not_lt.mp hshort, ?_⟩)
        simp only [hdep2, Bool.false_eq_true, if_false, if_neg hshort]
    · have hmet : (checkDependencies order.id processStep preparationTasks).met = false :=
        Bool.eq_false_iff.mpr hdep
      have hdep2 : (!(checkDependencies order.id processStep preparationTasks).met) = true := by
        simp [hmet]
      refine Or.inr (Or.inl
        ⟨Issue.dependencyNotMet processStep.name order.productName
          (checkDependencies order.id processStep preparationTasks).reason, ?_⟩)
      simp only [hdep2, if_true]

theorem mem_findSuitableEmployees {processStep : ProcessStep} {taskTime : ℤ}
    {allEmployees : List Employee} {existingTasks : List ScheduledTask} {e : Employee}
    (h : e ∈ findSuitableEmployees processStep taskTime allEmployees existingTasks) :
    e ∈ allEmployees :=
  List.mem_of_mem_filter h

theorem schedulePreparationRooms_tasks (processSteps : List ProcessStep)
    (orders : List ProductionOrder) (emps : List Employee) (T : ScheduledTask → Prop)
    (hplace : ∀ order, order ∈ orders →
      ∀ (orderStep : OrderProcessStep) (processStep : ProcessStep) (st : PassState),
      processSteps.find? (fun ps => ps.id == orderStep.processStepId) = some processStep →
      ∀ t ∈ makeTasks order orderStep processStep
        (findSuitableEmployees processStep st.currentTime emps st.tasks)
        st.currentTime
        (st.currentTime + (processStep.timePerKg * order.totalQuantity : ℕ))
        (processStep.timePerKg * order.totalQuantity), T t) :
    ∀ t ∈ (schedulePreparationRooms processSteps orders emps).1, T t := by
  have hstep : ∀ (order : ProductionOrder), order ∈ orders →
      ∀ (st : PassState) (orderStep : OrderProcessStep),
      (∀ t ∈ st.tasks, T t) →
      ∀ t ∈ (prepStepIter processSteps emps order st orderStep).tasks, T t := by
    intro order ho st orderStep hP t ht
    rcases prepStepIter_cases processSteps emps order st orderStep with h | ⟨i, h⟩ | ⟨ps, hfind, _, h⟩
    · rw [h] at ht
      exact hP t ht
    · rw [h] at ht
      exact hP t ht
    · rw [h] at ht
      rcases List.mem_append.mp ht with ht | ht
      · exact hP t ht
      · exact hplace order ho orderStep ps st hfind t ht
  have hmain : ∀ t ∈ (orders.foldl (prepOrderIter processSteps emps)
      { tasks := [], issues := [], currentTime := preparationStartTime }).tasks, T t := by
    refine foldl_preserves (P := fun s : PassState => ∀ t ∈ s.tasks, T t) orders ?_ _ ?_
    · intro s order ho hs
      exact foldl_preserves (P := fun s : PassState => ∀ t ∈ s.tasks, T t)
        (getPreparationStepsForOrder order) (fun s2 os _ hs2 => hstep order ho s2 os hs2) s hs
    · intro t ht
      simp at ht
  exact hmain

theorem scheduleFillingRoom_tasks (processSteps : List ProcessStep)
    (orders : List ProductionOrder) (emps : List Employee)
    (preparationTasks : List ScheduledTask) (T : ScheduledTask → Prop)
    (hplace : ∀ order, order ∈ orders →
      ∀ (orderStep : OrderProcessStep) (processStep : ProcessStep) (st : PassState),
      processSteps.find? (fun ps => ps.id == orderStep.processStepId) = some processStep →
      ∀ t ∈ makeTasks order orderStep processStep
        (findSuitableEmployees processStep
          (st.currentTime - (processStep.timePerKg * order.totalQuantity : ℕ))
          emps (st.tasks ++ preparationTasks))
        (st.currentTime - (processStep.timePerKg * order.totalQuantity : ℕ))
        st.currentTime
        (processStep.timePerKg * order.totalQuantity), T t) :
    ∀ t ∈ (scheduleFillingRoom processSteps orders emps preparationTasks).1, T t := by
  have hstep : ∀ (order : ProductionOrder), order ∈ orders →
      ∀ (st : PassState) (orderStep : OrderProcessStep),
      (∀ t ∈ st.tasks, T t) →
      ∀ t ∈ (fillStepIter processSteps emps preparationTasks order st orderStep).tasks, T t := by
    intro order ho st orderStep hP t ht
    rcases fillStepIter_cases processSteps emps preparationTasks order st orderStep with
      h | ⟨i, h⟩ | ⟨ps, hfind, _, h⟩
    · rw [h] at ht
      exact hP t ht
    · rw [h] at ht
      exact hP t ht
    · rw [h] at ht
      rcases List.mem_append.mp ht with ht | ht
      · exact hP t ht
      · exact hplace order ho orderStep ps st hfind t ht
  have hmain : ∀ t ∈ ((orders.reverse).foldl
      (fillOrderIter processSteps emps preparationTasks)
      { tasks := [], issues := [], currentTime := fillingEndTime }).tasks, T t := by
    refine foldl_preserves (P := fun s : PassState => ∀ t ∈ s.tasks, T t) orders.reverse ?_ _ ?_
    · intro s order ho hs
      exact foldl_preserves (P := fun s : PassState => ∀ t ∈ s.tasks, T t)
        ((getFillingStepsForOrder order).reverse)
        (fun s2 os _ hs2 => hstep order (List.mem_reverse.mp ho) s2 os hs2) s hs
    · intro t ht
      simp at ht
  exact hmain

/-- C1.  Evaluation of the matcher at the failing input: the candidate
instant is 06:00 (360), the step duration is timePerKg times the order
quantity, 1 times 10 = 10 minutes, and the worker has an existing assignment
over 06:02 to 06:03, strictly inside the full candidate interval 06:00 to
06:10.  The claim says such a worker is excluded; the code returns the
worker, because its conflict window is only timePerKg = 1 minute long (the
quantity factor is missing at the conflict check). -/
theorem findSuitableEmployees_ignores_full_duration :
    findSuitableEmployees exC1Step 360 [exC1Emp] [exC1Existing] = [exC1Emp] ∧
    exC1Existing.startTime < 360 + (exC1Step.timePerKg * exC1Order.totalQuantity : ℤ) ∧
    (360 : ℤ) < exC1Existing.endTime := by
  decide

/-- C2.  On every path that returns a SchedulingResult (normal completion,
the empty-orders early return, and the caught-error branch) the feasible flag
is true exactly when the issues list is empty. -/
theorem generateOptimalSchedule_feasible_iff (loadResult : Except String LoadedData)
    (tryFailure : Option String) (r : SchedulingResult)
    (h : generateOptimalSchedule loadResult tryFailure = Except.ok r) :
    r.feasible = true ↔ r.issues = [] := by
  cases loadResult with
  | error e => exact absurd h (by simp [generateOptimalSchedule])
  | ok data =>
    simp only [generateOptimalSchedule, Except.ok.injEq] at h
    subst h
    unfold generateOptimalScheduleLoaded
    by_cases hemp : data.orders.isEmpty = true
    · simp [hemp]
    · simp only [hemp, if_false]
      cases tryFailure with
      | some msg => simp
      | none =>
        simp only []
        constructor
        · intro hf
          exact List.isEmpty_iff.mp hf
        · intro hi
          exact List.isEmpty_iff.mpr hi

/-- Witness for C2 at a concrete run (the empty-orders path). -/
theorem generateOptimalSchedule_feasible_iff_witness :
    (generateOptimalScheduleLoaded { employees := [], processSteps := [], orders := [] }
        none).feasible = true ↔
      (generateOptimalScheduleLoaded { employees := [], processSteps := [], orders := [] }
        none).issues = [] :=
  generateOptimalSchedule_feasible_iff
    (Except.ok { employees := [], processSteps := [], orders := [] }) none _ rfl

/-- C3.  For a worker that exists in the employee list, the group of that
worker in the finished assignment set contains two overlapping assignments
(in the half-open sense) exactly when the validator pushes at least one
overlap issue while processing that worker, provided every assignment of the
group has start before end.  validateSchedule is the concatenation of
validateEmployeeTasks over the distinct employee ids of the task list, so
these are precisely the overlap issues reported for that worker. -/
theorem validator_overlap_iff_adjacent_issue (employees : List Employee)
    (tasks : List ScheduledTask) (employeeId : String)
    (hfound : (employees.find? fun e => e.id == employeeId).isSome = true)
    (hwf : ∀ t ∈ tasks.filter (fun t => t.employeeId == employeeId),
      t.startTime < t.endTime) :
    (¬ (tasks.filter fun t => t.employeeId == employeeId).Pairwise
        fun a b => ¬ TasksOverlap a b) ↔
      overlapIssueCount (validateEmployeeTasks employees tasks employeeId) ≠ 0 := by
  obtain ⟨employee, hfind⟩ := Option.isSome_iff_exists.mp hfound
  rw [overlapIssueCount_validateEmployeeTasks employees tasks employeeId employee hfind]
  exact group_overlap_iff_adjacent _ hwf

/-- Witness for C3 at a concrete overlapping pair. -/
theorem validator_overlap_iff_adjacent_issue_witness :
    (¬ ([exValT1, exValT2].filter fun t => t.employeeId == ("e1")).Pairwise
        fun a b => ¬ TasksOverlap a b) ↔
      overlapIssueCount (validateEmployeeTasks [exValEmp] [exValT1, exValT2] ("e1")) ≠ 0 :=
  validator_overlap_iff_adjacent_issue [exValEmp] [exValT1, exValT2] ("e1")
    (by decide) (by decide)

/-- C6.  In the preparation pass, a step whose suitable-worker list is
shorter than its required headcount changes the state only by appending the
single insufficient-staff issue carrying the needed and found counts: no task
is created and the clock is unchanged, so the fold hands the next step the
same instant. -/
theorem prepStepIter_insufficient_staff (processSteps : List ProcessStep)
    (availableEmployees : List Employee) (order : ProductionOrder)
    (st : PassState) (orderStep : OrderProcessStep) (processStep : ProcessStep)
    (hfind : processSteps.find? (fun ps => ps.id == orderStep.processStepId) = some processStep)
    (hshort : (findSuitableEmployees processStep st.currentTime availableEmployees
      st.tasks).length < processStep.requiredEmployees) :
    prepStepIter processSteps availableEmployees order st orderStep =
      { st with issues := st.issues ++
          [Issue.insufficientStaff processStep.name order.productName
            processStep.requiredEmployees
            (findSuitableEmployees processStep st.currentTime availableEmployees
              st.tasks).length] } := by
  unfold prepStepIter
  rw [hfind]
  simp only [if_pos hshort]

/-- Witness for C6: two workers required, one qualified worker present. -/
theorem prepStepIter_insufficient_staff_witness :
    prepStepIter [exC6Step] [exC6Emp] exC6Order
        { tasks := [], issues := [], currentTime := preparationStartTime } exC6OrderStep =
      { tasks := []
        issues := [Issue.insufficientStaff ("Mixing") ("Stew") 2 1]
        currentTime := preparationStartTime } :=
  prepStepIter_insufficient_staff [exC6Step] [exC6Emp] exC6Order
    { tasks := [], issues := [], currentTime := preparationStartTime } exC6OrderStep exC6Step
    (by decide) (by decide)

/-- C8.  The dependency checker reports unmet exactly when the step belongs
to a filling area and no already placed task of the same order id lies in a
preparation area; in particular a non-filling step is always met, and any
preparation assignment of the order suffices. -/
theorem checkDependencies_unmet_iff (orderId : String) (processStep : ProcessStep)
    (existingTasks : List ScheduledTask) :
    (checkDependencies orderId processStep existingTasks).met = false ↔
      (optIncludes processStep.productionAreaId fillingPat = true ∧
        ∀ task ∈ existingTasks,
          ¬(task.orderId = orderId ∧ strIncludes task.productionAreaId prepPat = true)) := by
  have key : ((existingTasks.filter fun task =>
      task.orderId == orderId && strIncludes task.productionAreaId prepPat).length = 0) ↔
      ∀ task ∈ existingTasks,
        ¬(task.orderId = orderId ∧ strIncludes task.productionAreaId prepPat = true) := by
    rw [List.length_eq_zero, List.filter_eq_nil_iff]
    constructor
    · intro h task ht hcontra
      exact h task ht (by simp [hcontra.1, hcontra.2])
    · intro h task ht hcontra
      have h12 : (task.orderId == orderId) = true ∧
          strIncludes task.productionAreaId prepPat = true := by
        simpa using hcontra
      exact h task ht ⟨beq_iff_eq.mp h12.1, h12.2⟩
  simp only [checkDependencies]
  by_cases hf : optIncludes processStep.productionAreaId fillingPat = true
  · rw [if_pos hf]
    by_cases hz : (existingTasks.filter fun task =>
        task.orderId == orderId && strIncludes task.productionAreaId prepPat).length = 0
    · rw [if_pos (beq_iff_eq.mpr hz)]
      exact iff_of_true rfl ⟨hf, key.mp hz⟩
    · rw [if_neg (fun hc => hz (beq_iff_eq.mp hc))]
      refine iff_of_false (by simp) ?_
      rintro ⟨_, hall⟩
      exact hz (key.mpr hall)
  · rw [if_neg hf]
    refine iff_of_false (by simp) ?_
    rintro ⟨hcontra, _⟩
    exact hf hcontra

/-- C10.  Every task of a returned schedule names an employee whose
isAvailable flag is true: both passes draw candidates from the pool filtered
once at the top of generateOptimalSchedule, even though findSuitableEmployees
itself never consults the flag. -/
theorem generateOptimalSchedule_tasks_available (data : LoadedData)
    (tryFailure : Option String) :
    ((generateOptimalScheduleLoaded data tryFailure).tasks.all fun t =>
      data.employees.any fun e => e.isAvailable && t.employeeId == e.id) = true := by
  rw [List.all_eq_true]
  intro t ht
  have hpool : ∀ u ∈ (generateOptimalScheduleLoaded data tryFailure).tasks,
      ∃ e ∈ data.employees.filter (fun emp => emp.isAvailable), u.employeeId = e.id := by
    intro u hu
    unfold generateOptimalScheduleLoaded at hu
    by_cases hemp : data.orders.isEmpty = true
    · rw [if_pos hemp] at hu
      simp at hu
    · rw [if_neg hemp] at hu
      cases tryFailure with
      | some msg => simp at hu
      | none =>
        rcases List.mem_append.mp hu with hu | hu
        · refine schedulePreparationRooms_tasks data.processSteps
            (sortOrdersByQuantity data.orders)
            (data.employees.filter fun emp => emp.isAvailable)
            (fun v => ∃ e ∈ data.employees.filter (fun emp => emp.isAvailable),
              v.employeeId = e.id) ?_ u hu
          intro order _ os ps st _ v hv
          obtain ⟨_, _, _, _, _, _, emp, hememp, heq⟩ := mem_makeTasks hv
          exact ⟨emp, mem_findSuitableEmployees hememp, heq⟩
        · refine scheduleFillingRoom_tasks data.processSteps
            (sortOrdersByQuantity data.orders)
            (data.employees.filter fun emp => emp.isAvailable) _
            (fun v => ∃ e ∈ data.employees.filter (fun emp => emp.isAvailable),
              v.employeeId = e.id) ?_ u hu
          intro order _ os ps st _ v hv
          obtain ⟨_, _, _, _, _, _, emp, hememp, heq⟩ := mem_makeTasks hv
          exact ⟨emp, mem_findSuitableEmployees hememp, heq⟩
  obtain ⟨e, hef, heq⟩ := hpool t ht
  obtain ⟨hemem, hav⟩ := List.mem_filter.mp hef
  rw [List.any_eq_true]
  refine ⟨e, hemem, ?_⟩
  simp [hav, heq]

/-- C4.  Every assignment produced by either scheduling pass satisfies the
exact duration bookkeeping: estimatedDuration is timePerKg times
totalQuantity of its referenced step and order, the end minus start is
exactly that many minutes, and under positive timePerKg and quantity the end
is strictly after the start. -/
theorem passes_assignment_spec (processSteps : List ProcessStep)
    (orders : List ProductionOrder) (emps : List Employee)
    (preparationTasks : List ScheduledTask)
    (hpos : ∀ p ∈ processSteps, 0 < p.timePerKg)
    (hq : ∀ o ∈ orders, 0 < o.totalQuantity) :
    ∀ t ∈ (schedulePreparationRooms processSteps orders emps).1 ++
        (scheduleFillingRoom processSteps orders emps preparationTasks).1,
      AssignmentSpec orders processSteps t := by
  intro t ht
  rcases List.mem_append.mp ht with ht | ht
  · refine schedulePreparationRooms_tasks processSteps orders emps _ ?_ t ht
    intro order ho os ps st hf u hu
    obtain ⟨ho1, _, ho3, ho4, ho5, ho6, _⟩ := mem_makeTasks hu
    have hpmem := List.mem_of_find?_eq_some hf
    have hdpos : 0 < ps.timePerKg * order.totalQuantity :=
      Nat.mul_pos (hpos ps hpmem) (hq order ho)
    refine ⟨?_, ?_, order, ho, ps, hpmem, ho1, ho3, ho6⟩
    · rw [ho4, ho5, ho6]
      ring
    · rw [ho4, ho5]
      omega
  · refine scheduleFillingRoom_tasks processSteps orders emps preparationTasks _ ?_ t ht
    intro order ho os ps st hf u hu
    obtain ⟨ho1, _, ho3, ho4, ho5, ho6, _⟩ := mem_makeTasks hu
    have hpmem := List.mem_of_find?_eq_some hf
    have hdpos : 0 < ps.timePerKg * order.totalQuantity :=
      Nat.mul_pos (hpos ps hpmem) (hq order ho)
    refine ⟨?_, ?_, order, ho, ps, hpmem, ho1, ho3, ho6⟩
    · rw [ho4, ho5, ho6]
      ring
    · rw [ho4, ho5]
      omega

/-- Witness for C4 at the concrete Scenario A style run. -/
theorem passes_assignment_spec_witness :
    AssignmentSpec [exC4Order] [exC4Step] exC4Task :=
  passes_assignment_spec [exC4Step] [exC4Order] [exC4Emp] []
    (by decide) (by decide) exC4Task (by decide)

/-- C9 counterexample.  An exception raised while loading the inputs (the
storage reads before the try block) propagates to the caller: no
SchedulingResult is returned at all, contradicting the claim that any
exception during a run yields a feasible-false result. -/
theorem generateOptimalSchedule_load_error_no_result :
    generateOptimalSchedule (Except.error ("database unavailable")) none =
      Except.error ("database unavailable") := rfl

/-- C9 amended.  An exception raised inside the try block (after the loads
and the empty-orders check) is caught and converted into a result with no
tasks, feasible false, and exactly one synthetic issue. -/
theorem generateOptimalSchedule_caught_error_single_issue (data : LoadedData) (msg : String)
    (h : data.orders ≠ []) :
    generateOptimalSchedule (Except.ok data) (some msg) =
      Except.ok
        { tasks := []
          feasible := false
          issues := [Issue.schedulingFailed msg]
          recommendations := [Recommendation.reviewInput] } := by
  have hne : data.orders.isEmpty = false := by
    cases ho : data.orders with
    | nil => exact absurd ho h
    | cons a t => rfl
  simp [generateOptimalSchedule, generateOptimalScheduleLoaded, hne]

/-- C5 counterexample.  A filling step template with requiredEmployees = 0
passes the staffing check (found 0 is not less than needed 0), creates no
assignment, and still retreats the backward clock; a later step of the same
reverse iteration is then placed ending at 16:00, so the pass places exactly
one assignment whose end time differs from the 17:00 anchor even though every
processed step had its dependency met and enough suitable workers. -/
theorem scheduleFillingRoom_zero_headcount_cex :
    ((scheduleFillingRoom [exC5Step1, exC5Step2] [exC5Order] [exC5Emp] [exC5Prep]).1.map
      fun t => t.endTime) = [960] ∧ (960 : ℤ) ≠ fillingEndTime := by
  decide

/-- C5 amended.  If every step template requires at least one employee, then
whenever the backward pass places any assignment, the maximum end time over
its assignments is exactly the 17:00 anchor: some assignment ends at
fillingEndTime and none ends later (skipped steps leave the clock unchanged,
and a placed step pushes at least one assignment ending at the previous
clock). -/
theorem scheduleFillingRoom_latest_end_anchor (processSteps : List ProcessStep)
    (orders : List ProductionOrder) (emps : List Employee)
    (preparationTasks : List ScheduledTask)
    (hreq : ∀ p ∈ processSteps, 1 ≤ p.requiredEmployees)
    (hne : (scheduleFillingRoom processSteps orders emps preparationTasks).1 ≠ []) :
    (∃ t ∈ (scheduleFillingRoom processSteps orders emps preparationTasks).1,
      t.endTime = fillingEndTime) ∧
    ∀ t ∈ (scheduleFillingRoom processSteps orders emps preparationTasks).1,
      t.endTime ≤ fillingEndTime := by
  have hstep : ∀ (order : ProductionOrder) (st : PassState) (orderStep : OrderProcessStep),
      (st.currentTime ≤ fillingEndTime ∧ (st.tasks = [] → st.currentTime = fillingEndTime) ∧
        (∀ t ∈ st.tasks, t.endTime ≤ fillingEndTime) ∧
        (st.tasks ≠ [] → ∃ t ∈ st.tasks, t.endTime = fillingEndTime)) →
      ((fillStepIter processSteps emps preparationTasks order st orderStep).currentTime ≤
          fillingEndTime ∧
        ((fillStepIter processSteps emps preparationTasks order st orderStep).tasks = [] →
          (fillStepIter processSteps emps preparationTasks order st orderStep).currentTime =
            fillingEndTime) ∧
        (∀ t ∈ (fillStepIter processSteps emps preparationTasks order st orderStep).tasks,
          t.endTime ≤ fillingEndTime) ∧
        ((fillStepIter processSteps emps preparationTasks order st orderStep).tasks ≠ [] →
          ∃ t ∈ (fillStepIter processSteps emps preparationTasks order st orderStep).tasks,
            t.endTime = fillingEndTime)) := by
    intro order st orderStep hQ
    obtain ⟨h1, h2, h3, h4⟩ := hQ
    rcases fillStepIter_cases processSteps emps preparationTasks order st orderStep with
      h | ⟨i, h⟩ | ⟨ps, hfind, hle, h⟩
    · rw [h]
      exact ⟨h1, h2, h3, h4⟩
    · rw [h]
      exact ⟨h1, h2, h3, h4⟩
    · rw [h]
      dsimp only
      have hpmem := List.mem_of_find?_eq_some hfind
      have hne2 := makeTasks_ne_nil order orderStep ps
        (findSuitableEmployees ps
          (st.currentTime - (ps.timePerKg * order.totalQuantity : ℕ)) emps
          (st.tasks ++ preparationTasks))
        (st.currentTime - (ps.timePerKg * order.totalQuantity : ℕ)) st.currentTime
        (ps.timePerKg * order.totalQuantity) (hreq ps hpmem) hle
      have hd0 : (0:ℤ) ≤ ((ps.timePerKg * order.totalQuantity : ℕ) : ℤ) :=
        Int.ofNat_nonneg _
      refine ⟨by omega, ?_, ?_, ?_⟩
      · intro hz
        rcases List.append_eq_nil.mp hz with ⟨_, hmk⟩
        exact absurd hmk hne2
      · intro t ht2
        rcases List.mem_append.mp ht2 with ht2 | ht2
        · exact h3 t ht2
        · obtain ⟨_, _, _, _, he, _, _⟩ := mem_makeTasks ht2
          rw [he]
          exact h1
      · intro _
        by_cases hst : st.tasks = []
        · obtain ⟨t0, ht0⟩ := List.exists_mem_of_ne_nil _ hne2
          obtain ⟨_, _, _, _, he, _, _⟩ := mem_makeTasks ht0
          refine ⟨t0, List.mem_append_right _ ht0, ?_⟩
          rw [he]
          exact h2 hst
        · obtain ⟨t0, ht0, he0⟩ := h4 hst
          exact ⟨t0, List.mem_append_left _ ht0, he0⟩
  have hinv := foldl_preserves
    (P := fun s : PassState => s.currentTime ≤ fillingEndTime ∧
      (s.tasks = [] → s.currentTime = fillingEndTime) ∧
      (∀ t ∈ s.tasks, t.endTime ≤ fillingEndTime) ∧
      (s.tasks ≠ [] → ∃ t ∈ s.tasks, t.endTime = fillingEndTime))
    orders.reverse
    (fun s o _ hs => foldl_preserves
      (P := fun s : PassState => s.currentTime ≤ fillingEndTime ∧
        (s.tasks = [] → s.currentTime = fillingEndTime) ∧
        (∀ t ∈ s.tasks, t.endTime ≤ fillingEndTime) ∧
        (s.tasks ≠ [] → ∃ t ∈ s.tasks, t.endTime = fillingEndTime))
      ((getFillingStepsForOrder o).reverse)
      (fun s2 os _ hs2 => hstep o s2 os hs2) s hs)
    { tasks := [], issues := [], currentTime := fillingEndTime }
    ⟨le_refl _, fun _ => rfl, by simp, fun hc => absurd rfl hc⟩
  obtain ⟨_, _, hC, hD⟩ := hinv
  exact ⟨hD hne, hC⟩

/-- Witness for C5 amended: one staffable filling step of 60 minutes is
placed over 16:00 to 17:00, ending exactly at the anchor. -/
theorem scheduleFillingRoom_latest_end_anchor_witness :
    (∃ t ∈ (scheduleFillingRoom [exC5WStep] [exC5WOrder] [exC5WEmp] [exC5WPrep]).1,
      t.endTime = fillingEndTime) ∧
    ∀ t ∈ (scheduleFillingRoom [exC5WStep] [exC5WOrder] [exC5WEmp] [exC5WPrep]).1,
      t.endTime ≤ fillingEndTime :=
  scheduleFillingRoom_latest_end_anchor [exC5WStep] [exC5WOrder] [exC5WEmp] [exC5WPrep]
    (by decide) (by decide)

theorem prepOrderIter_spec (processSteps : List ProcessStep) (emps : List Employee)
    (order : ProductionOrder) (st0 : PassState)
    (hpos : ∀ p ∈ processSteps, 0 < p.timePerKg) (hq : 0 < order.totalQuantity) :
    st0.currentTime ≤ (prepOrderIter processSteps emps st0 order).currentTime ∧
    ∃ new, (prepOrderIter processSteps emps st0 order).tasks = st0.tasks ++ new ∧
      ∀ t ∈ new, t.orderId = order.id ∧ st0.currentTime ≤ t.startTime ∧
        t.startTime < t.endTime ∧
        t.endTime ≤ (prepOrderIter processSteps emps st0 order).currentTime := by
  have hstep : ∀ (s : PassState) (os : OrderProcessStep),
      (st0.currentTime ≤ s.currentTime ∧
        ∃ new, s.tasks = st0.tasks ++ new ∧
          ∀ t ∈ new, t.orderId = order.id ∧ st0.currentTime ≤ t.startTime ∧
            t.startTime < t.endTime ∧ t.endTime ≤ s.currentTime) →
      (st0.currentTime ≤ (prepStepIter processSteps emps order s os).currentTime ∧
        ∃ new, (prepStepIter processSteps emps order s os).tasks = st0.tasks ++ new ∧
          ∀ t ∈ new, t.orderId = order.id ∧ st0.currentTime ≤ t.startTime ∧
            t.startTime < t.endTime ∧
            t.endTime ≤ (prepStepIter processSteps emps order s os).currentTime) := by
    intro s os hP
    obtain ⟨hct, new, htasks, hnew⟩ := hP
    rcases prepStepIter_cases processSteps emps order s os with h | ⟨i, h⟩ | ⟨ps, hfind, hle, h⟩
    · rw [h]
      exact ⟨hct, new, htasks, hnew⟩
    · rw [h]
      exact ⟨hct, new, htasks, hnew⟩
    · rw [h]
      dsimp only
      have hpmem := List.mem_of_find?_eq_some hfind
      have hdpos : 0 < ps.timePerKg * order.totalQuantity :=
        Nat.mul_pos (hpos ps hpmem) hq
      have hd0 : (0:ℤ) < ((ps.timePerKg * order.totalQuantity : ℕ) : ℤ) := by
        exact_mod_cast hdpos
      refine ⟨by omega,
        new ++ makeTasks order os ps
          (findSuitableEmployees ps s.currentTime emps s.tasks) s.currentTime
          (s.currentTime + (ps.timePerKg * order.totalQuantity : ℕ))
          (ps.timePerKg * order.totalQuantity),
        by rw [htasks, List.append_assoc], ?_⟩
      intro t ht
      rcases List.mem_append.mp ht with ht | ht
      · obtain ⟨q1, q2, q3, q4⟩ := hnew t ht
        exact ⟨q1, q2, q3, by omega⟩
      · obtain ⟨r1, _, _, r4, r5, _, _⟩ := mem_makeTasks ht
        refine ⟨r1, ?_, ?_, le_of_eq r5⟩
        · rw [r4]
          exact hct
        · rw [r4, r5]
          omega
  exact foldl_preserves
    (P := fun s : PassState => st0.currentTime ≤ s.currentTime ∧
      ∃ new, s.tasks = st0.tasks ++ new ∧
        ∀ t ∈ new, t.orderId = order.id ∧ st0.currentTime ≤ t.startTime ∧
          t.startTime < t.endTime ∧ t.endTime ≤ s.currentTime)
    (getPreparationStepsForOrder order) (fun s os _ hs => hstep s os hs) st0
    ⟨le_refl _, [], (List.append_nil _).symm, by simp⟩

/-- C7.  The order sequencer sorts by ascending totalQuantity only (the
priority field never enters the comparison), and on the sorted two-order
list the preparation pass places every assignment of the smaller order
strictly before every assignment of the larger order on the shared clock:
smaller-order assignments start earlier and end no later than any
larger-order assignment starts. -/
theorem sortOrdersByQuantity_and_separation
    (l : List ProductionOrder) (processSteps : List ProcessStep) (emps : List Employee)
    (o1 o2 : ProductionOrder)
    (hq12 : o1.totalQuantity < o2.totalQuantity) (hid : o1.id ≠ o2.id)
    (hpos : ∀ p ∈ processSteps, 0 < p.timePerKg) (hq1 : 0 < o1.totalQuantity) :
    ((sortOrdersByQuantity l).Pairwise fun a b => a.totalQuantity ≤ b.totalQuantity) ∧
    (sortOrdersByQuantity l).Perm l ∧
    sortOrdersByQuantity [o2, o1] = [o1, o2] ∧
    ∀ t1 ∈ (schedulePreparationRooms processSteps [o1, o2] emps).1,
      ∀ t2 ∈ (schedulePreparationRooms processSteps [o1, o2] emps).1,
        t1.orderId = o1.id → t2.orderId = o2.id →
        t1.startTime < t2.startTime ∧ t1.endTime ≤ t2.startTime := by
  refine ⟨?_, sortByKey_perm _ l, ?_, ?_⟩
  · have h := sortByKey_pairwise (fun o : ProductionOrder => (o.totalQuantity : ℤ)) l
    exact h.imp fun hab => by exact_mod_cast hab
  · have hnot : ¬ ((o2.totalQuantity : ℤ) ≤ (o1.totalQuantity : ℤ)) := by
      exact_mod_cast not_le.mpr hq12
    simp [sortOrdersByQuantity, sortByKey, sortLe, insertLe, hnot]
  · intro t1 ht1 t2 ht2 hid1 hid2
    have h1 := prepOrderIter_spec processSteps emps o1
      { tasks := [], issues := [], currentTime := preparationStartTime } hpos hq1
    obtain ⟨hct1, new1, htasks1, hnew1⟩ := h1
    have hq2 : 0 < o2.totalQuantity := lt_trans hq1 hq12
    have h2 := prepOrderIter_spec processSteps emps o2
      (prepOrderIter processSteps emps
        { tasks := [], issues := [], currentTime := preparationStartTime } o1) hpos hq2
    obtain ⟨hct2, new2, htasks2, hnew2⟩ := h2
    have htasks1n : (prepOrderIter processSteps emps
        { tasks := [], issues := [], currentTime := preparationStartTime } o1).tasks = new1 := by
      rw [htasks1]
      rfl
    have ht1m : t1 ∈ new1 ++ new2 := by
      have hx : t1 ∈ (prepOrderIter processSteps emps
          (prepOrderIter processSteps emps
            { tasks := [], issues := [], currentTime := preparationStartTime } o1) o2).tasks := ht1
      rw [htasks2, htasks1n] at hx
      exact hx
    have ht2m : t2 ∈ new1 ++ new2 := by
      have hx : t2 ∈ (prepOrderIter processSteps emps
          (prepOrderIter processSteps emps
            { tasks := [], issues := [], currentTime := preparationStartTime } o1) o2).tasks := ht2
      rw [htasks2, htasks1n] at hx
      exact hx
    have ht1n : t1 ∈ new1 := by
      rcases List.mem_append.mp ht1m with h | h
      · exact h
      · exact absurd (hid1 ▸ (hnew2 t1 h).1) hid
    have ht2n : t2 ∈ new2 := by
      rcases List.mem_append.mp ht2m with h | h
      · exact absurd ((hnew1 t2 h).1.symm.trans hid2) hid
      · exact h
    obtain ⟨_, _, ha3, ha4⟩ := hnew1 t1 ht1n
    obtain ⟨_, hb2, _, _⟩ := hnew2 t2 ht2n
    have hb2n : (prepOrderIter processSteps emps
        { tasks := [], issues := [], currentTime := preparationStartTime } o1).currentTime ≤
        t2.startTime := hb2
    exact ⟨lt_of_lt_of_le ha3 (le_trans ha4 hb2n), le_trans ha4 hb2n⟩

/-- Witness for C7 at the 50 kg / 200 kg scenario. -/
theorem sortOrdersByQuantity_and_separation_witness :
    sortOrdersByQuantity [exC7O2, exC7O1] = [exC7O1, exC7O2] ∧
    exC7T1.startTime < exC7T2.startTime ∧ exC7T1.endTime ≤ exC7T2.startTime := by
  have H := sortOrdersByQuantity_and_separation [exC7O2, exC7O1] [exC7Step] [exC7Emp]
    exC7O1 exC7O2 (by decide) (by decide) (by decide) (by decide)
  exact ⟨H.2.2.1, H.2.2.2 exC7T1 (by decide) exC7T2 (by decide) (by decide) (by decide)⟩

/-- Witness for C9 amended at a concrete failing run. -/
theorem generateOptimalSchedule_caught_error_single_issue_witness :
    generateOptimalSchedule
        (Except.ok { employees := [], processSteps := [], orders := [exC9Order] })
        (some ("storage write failed")) =
      Except.ok
        { tasks := []
          feasible := false
          issues := [Issue.schedulingFailed ("storage write failed")]
          recommendations := [Recommendation.reviewInput] } :=
  generateOptimalSchedule_caught_error_single_issue
    { employees := [], processSteps := [], orders := [exC9Order] }
    ("storage write failed") (by decide)

end ShiftGenius
